import Mathlib

/-!
Shallow embedding of the data-preparation and aggregation pipeline of the
fusion-finance-dashboard application (app.py), together with theorems that
settle the specification claims about it.

Modelling conventions:
* a spreadsheet cell is `Cell`: a rational number, a raw string, or a null
  (pandas NaN);
* a dataframe is `Table`: a header list plus rows of cells (rectangular
  tables have every row of the same length as the header);
* pandas raising `KeyError` on a missing column is modelled by
  `Except.error` carrying a message that names the column;
* `pd.to_numeric(..., errors="coerce")` on a string cell is modelled by
  `parseNum`, which accepts an optionally signed decimal literal
  (surrounding whitespace allowed); unparseable cells become null and
  `fillna(0)` turns nulls into zero, exactly as in `load_data`;
* Python `int()` truncation toward zero is `truncQ`, and Python
  `round(x, 2)` (banker's rounding) is `roundQ2`, both over `ℚ`.
-/

namespace Fusion

/-- A spreadsheet cell: a numeric value, a raw string, or a null (NaN). -/
inductive Cell where
  | num (q : ℚ)
  | str (s : String)
  | null
deriving DecidableEq, Repr

/-- A dataframe: a list of column names and a list of rows of cells. -/
structure Table where
  cols : List String
  rows : List (List Cell)
deriving DecidableEq, Repr

/-- Lowercase every character of a string (model of Python str.lower). -/
def lowerStr (s : String) : String :=
  String.mk (s.data.map Char.toLower)

/-- Does the character list start with the given needle? -/
def startsWithL : List Char → List Char → Bool
  | _, [] => true
  | [], _ :: _ => false
  | a :: as, b :: bs => a == b && startsWithL as bs

/-- Does the haystack contain the needle as a contiguous run? -/
def containsSub : List Char → List Char → Bool
  | [], needle => needle.isEmpty
  | a :: t, needle => startsWithL (a :: t) needle || containsSub t needle

/-- Substring test on strings (model of Python `k in c`). -/
def strContains (hay needle : String) : Bool :=
  containsSub hay.data needle.data

/-- Does any keyword occur in the lowercased column name?  This is the body
of the inner loop of `find_col` in app.py. -/
def colMatches (keys : List String) (c : String) : Bool :=
  keys.any (fun k => strContains (lowerStr c) k)

/-- Column role resolver of app.py: scan columns in order and return the
first whose lowercased name contains any keyword; `none` when no column
matches (`find_col` returns `None`). -/
def find_col (cols keys : List String) : Option String :=
  match cols with
  | [] => none
  | c :: rest => if colMatches keys c then some c else find_col rest keys

/-- Trim surrounding whitespace (model of Python str.strip). -/
def strip (s : String) : String :=
  String.mk (((s.data.dropWhile Char.isWhitespace).reverse.dropWhile Char.isWhitespace).reverse)

/-- Accumulate a run of decimal digits into a natural number. -/
def digitsToNat (ds : List Char) : ℕ :=
  ds.foldl (fun a c => a * 10 + (c.toNat - 48)) 0

/-- Model of numeric coercion of a string cell by
pd.to_numeric(..., errors="coerce"): an optionally signed decimal literal,
surrounding whitespace allowed; anything else fails (becomes NaN). -/
def parseNum (s : String) : Option ℚ :=
  let cs := (strip s).data
  let signAndRest : ℚ × List Char :=
    match cs with
    | '-' :: t => (-1, t)
    | '+' :: t => (1, t)
    | _ => (1, cs)
  let sign := signAndRest.1
  let body := signAndRest.2
  let ip := body.takeWhile Char.isDigit
  let rest := body.dropWhile Char.isDigit
  match rest with
  | [] => if ip.isEmpty then none else some (sign * (digitsToNat ip : ℚ))
  | '.' :: rest2 =>
      let fp := rest2.takeWhile Char.isDigit
      let rest3 := rest2.dropWhile Char.isDigit
      if rest3.isEmpty && (!ip.isEmpty || !fp.isEmpty) then
        some (sign * ((digitsToNat ip : ℚ) + (digitsToNat fp : ℚ) / (10 ^ fp.length : ℚ)))
      else none
  | _ => none

/-- Effect of pd.to_numeric(..., errors="coerce").fillna(0) on one cell:
numbers pass through, parseable strings become their value, everything
else becomes zero. -/
def coerceCell : Cell → Cell
  | .num q => .num q
  | .str s =>
      match parseNum s with
      | some q => .num q
      | none => .num 0
  | .null => .num 0

/-- Does numeric coercion of this cell fail (so that fillna supplies 0)? -/
def coerceFails : Cell → Bool
  | .num _ => false
  | .str s => (parseNum s).isNone
  | .null => true

/-- The fixed list of numeric columns of load_data in app.py. -/
def numeric_cols : List String :=
  ["No of Loans", "Dailed Customers", "Connect", "Nos. of PTP",
   "Nos of Loans Paid", "Intensity", "Collection Amount",
   "Principal Outstanding", "POS 100%", "Total Amt 100%",
   "Total Default Amount"]

/-- Index of the first column with the given name, if any. -/
def colIdx (cols : List String) (c : String) : Option ℕ :=
  match cols with
  | [] => none
  | x :: rest => if x = c then some 0 else (colIdx rest c).map (· + 1)

/-- Cell of a row under a column name (null when the column is absent or
the row is too short; rectangular tables never hit the default). -/
def getCell (cols : List String) (r : List Cell) (c : String) : Cell :=
  match colIdx cols c with
  | some i => r.getD i Cell.null
  | none => Cell.null

/-- Coerce the cell of one numeric column in one row (the body of the
per-column loop of load_data). -/
def coerceColumn (cols : List String) (target : String) (r : List Cell) : List Cell :=
  match colIdx cols target with
  | some i => r.set i (coerceCell (r.getD i Cell.null))
  | none => r

/-- load_data of app.py: strip the column names, then for every column of
`numeric_cols` that is present coerce its cells to numbers with failures
becoming zero.  The disk read and cache are outside the model; the input
`Table` is the parsed sheet. -/
def load_data (t : Table) : Table :=
  let cols := t.cols.map strip
  let rows := numeric_cols.foldl
    (fun rs col => if cols.contains col then rs.map (coerceColumn cols col) else rs)
    t.rows
  ⟨cols, rows⟩

/-- Model of pandas astype(str) on one cell, as used by the exact-match
filters (the precise rendering of numbers and NaN is immaterial to the
claims; textual cells render as themselves). -/
def cellToStr : Cell → String
  | .num q => toString q
  | .str s => s
  | .null => "nan"

/-- Numeric value of a cell as summed by pandas .sum() (NaN is skipped,
so nulls contribute zero; after load_data the summed columns are numeric). -/
def cellToQ : Cell → ℚ
  | .num q => q
  | .str _ => 0
  | .null => 0

/-- Series comparison Connect > 0 on one cell. -/
def cellGtZero : Cell → Bool
  | .num q => decide (0 < q)
  | _ => false

/-- Series comparison Connect == 0 on one cell. -/
def cellEqZero : Cell → Bool
  | .num q => decide (q = 0)
  | _ => false

/-- State filter step of app.py: when the selection is not "All", keep the
rows whose state column, as a string, equals the selection.  Accessing a
missing column is a pandas KeyError, modelled as Except.error. -/
def stepState (scol ssel : String) (t : Table) : Except String Table :=
  if ssel = "All" then .ok t
  else if t.cols.contains scol then
    .ok ⟨t.cols, t.rows.filter (fun r => cellToStr (getCell t.cols r scol) == ssel)⟩
  else .error ("KeyError: " ++ scol)

/-- DPD-bucket filter step of app.py, same shape as the state step. -/
def stepDpd (dcol dsel : String) (t : Table) : Except String Table :=
  if dsel = "All" then .ok t
  else if t.cols.contains dcol then
    .ok ⟨t.cols, t.rows.filter (fun r => cellToStr (getCell t.cols r dcol) == dsel)⟩
  else .error ("KeyError: " ++ dcol)

/-- Connect-status filter step of app.py: "Connected" keeps rows with
Connect > 0, "Not Connected" keeps rows with Connect == 0, anything else
keeps all rows.  The "Connect" column is accessed unguarded, so its
absence is a KeyError. -/
def stepConnect (csel : String) (t : Table) : Except String Table :=
  if csel = "Connected" then
    if t.cols.contains "Connect" then
      .ok ⟨t.cols, t.rows.filter (fun r => cellGtZero (getCell t.cols r "Connect"))⟩
    else .error "KeyError: Connect"
  else if csel = "Not Connected" then
    if t.cols.contains "Connect" then
      .ok ⟨t.cols, t.rows.filter (fun r => cellEqZero (getCell t.cols r "Connect"))⟩
    else .error "KeyError: Connect"
  else .ok t

/-- The filter pipeline of app.py in source order: state, then DPD bucket,
then connect status. -/
def filtered_df (scol dcol ssel dsel csel : String) (t : Table) : Except String Table :=
  Except.bind (Except.bind (stepState scol ssel t) (stepDpd dcol dsel)) (stepConnect csel)

/-- Name of one of the three filter steps, used to speak about applying
them in different orders. -/
inductive FStep where
  | fState
  | fDpd
  | fConnect
deriving DecidableEq, Repr

/-- Interpret a step name as the corresponding filter step. -/
def runStep (scol dcol ssel dsel csel : String) : FStep → Table → Except String Table
  | .fState => stepState scol ssel
  | .fDpd => stepDpd dcol dsel
  | .fConnect => stepConnect csel

/-- Run a list of filter steps left to right. -/
def runSteps (scol dcol ssel dsel csel : String) (l : List FStep) (t : Table) :
    Except String Table :=
  l.foldl (fun acc s => Except.bind acc (runStep scol dcol ssel dsel csel s)) (.ok t)

/-- Floor of a rational, written as in Rat.floor so it evaluates. -/
def floorQ (q : ℚ) : ℤ := q.num / (q.den : ℤ)

/-- Python int() truncation toward zero on a rational. -/
def truncQ (q : ℚ) : ℤ := if 0 ≤ q then floorQ q else -floorQ (-q)

/-- Round a rational to the nearest integer, ties to even (Python round). -/
def roundHalfEven (q : ℚ) : ℤ :=
  let f := floorQ q
  let r := q - (f : ℚ)
  if r < 1/2 then f
  else if 1/2 < r then f + 1
  else if f % 2 = 0 then f else f + 1

/-- Python round(x, 2): two decimal places, ties to even. -/
def roundQ2 (q : ℚ) : ℚ := (roundHalfEven (q * 100) : ℚ) / 100

/-- Sum of a column over a list of rows (pandas .sum(), NaN skipped). -/
def sumColRows (cols : List String) (rows : List (List Cell)) (col : String) : ℚ :=
  (rows.map (fun r => cellToQ (getCell cols r col))).sum

/-- Sum of a column of a table. -/
def sumCol (t : Table) (col : String) : ℚ := sumColRows t.cols t.rows col

/-- KPI helper total of app.py: int(filtered_df[col].sum()) when the
column is present, else 0. -/
def total (t : Table) (col : String) : ℤ :=
  if t.cols.contains col then truncQ (sumCol t col) else 0

/-- KPI helper crore of app.py: round(filtered_df[col].sum() / 1e7, 2)
when the column is present, else 0. -/
def crore (t : Table) (col : String) : ℚ :=
  if t.cols.contains col then roundQ2 (sumCol t col / 10000000) else 0

/-- Insert a string into a sorted list of strings. -/
def insertSorted (x : String) : List String → List String
  | [] => [x]
  | y :: t => if decide (x ≤ y) then x :: y :: t else y :: insertSorted x t

/-- Sort a list of strings ascending (groupby sorts its keys). -/
def sortKeys (l : List String) : List String := l.foldr insertSorted []

/-- Distinct group keys of a column, sorted ascending as pandas groupby
does (keys are the astype-str renderings of the cells). -/
def groupKeys (t : Table) (col : String) : List String :=
  sortKeys ((t.rows.map (fun r => cellToStr (getCell t.cols r col))).eraseDups)

/-- Rows of a table whose cell at the column renders as the given key. -/
def rowsOfKey (t : Table) (col key : String) : List (List Cell) :=
  t.rows.filter (fun r => cellToStr (getCell t.cols r col) == key)

/-- state_summary of app.py:
groupby(state_col)[["Collection Amount", "Principal Outstanding"]].sum()
plus the two derived crore columns.  Selecting a missing column from the
grouped frame is a pandas KeyError, modelled as Except.error.  Each output
entry is (key, collection sum, principal sum, collection crore,
principal crore). -/
def state_summary (t : Table) (scol : String) :
    Except String (List (String × ℚ × ℚ × ℚ × ℚ)) :=
  if !t.cols.contains scol then .error ("KeyError: " ++ scol)
  else if !t.cols.contains "Collection Amount" then .error "KeyError: Collection Amount"
  else if !t.cols.contains "Principal Outstanding" then .error "KeyError: Principal Outstanding"
  else .ok ((groupKeys t scol).map (fun k =>
    let ca := sumColRows t.cols (rowsOfKey t scol k) "Collection Amount"
    let po := sumColRows t.cols (rowsOfKey t scol k) "Principal Outstanding"
    (k, ca, po, ca / 10000000, po / 10000000)))

/-- dpd_summary of app.py: groupby(dpd_col)["Collection Amount"].sum()
plus the derived crore column. -/
def dpd_summary (t : Table) (dcol : String) :
    Except String (List (String × ℚ × ℚ)) :=
  if !t.cols.contains dcol then .error ("KeyError: " ++ dcol)
  else if !t.cols.contains "Collection Amount" then .error "KeyError: Collection Amount"
  else .ok ((groupKeys t dcol).map (fun k =>
    let ca := sumColRows t.cols (rowsOfKey t dcol k) "Collection Amount"
    (k, ca, ca / 10000000)))

/-- Row predicate equivalent of the state filter step (proof helper):
true on the rows the step keeps. -/
def predState (cols : List String) (scol ssel : String) (r : List Cell) : Bool :=
  ssel == "All" || cellToStr (getCell cols r scol) == ssel

/-- Row predicate equivalent of the DPD filter step (proof helper). -/
def predDpd (cols : List String) (dcol dsel : String) (r : List Cell) : Bool :=
  dsel == "All" || cellToStr (getCell cols r dcol) == dsel

/-- Row predicate equivalent of the connect filter step (proof helper). -/
def predConnect (cols : List String) (csel : String) (r : List Cell) : Bool :=
  if csel == "Connected" then cellGtZero (getCell cols r "Connect")
  else if csel == "Not Connected" then cellEqZero (getCell cols r "Connect")
  else true

/-- Row predicate of a named filter step (proof helper). -/
def predOf (scol dcol ssel dsel csel : String) (cols : List String) :
    FStep → List Cell → Bool
  | .fState => predState cols scol ssel
  | .fDpd => predDpd cols dcol dsel
  | .fConnect => predConnect cols csel

/-! ### Theorems about the column role resolver -/

/-- C5: find_col scans columns in table order and, per column, the keyword
list; it returns the first column whose lowercased name contains any
keyword (so the earliest matching column in table order wins regardless of
which keyword matched), and it returns none exactly when no column matches
any keyword. -/
theorem find_col_first_match (cols keys : List String) :
    (find_col cols keys = none ↔ ∀ c ∈ cols, colMatches keys c = false) ∧
    (∀ c, find_col cols keys = some c →
      colMatches keys c = true ∧
      ∃ l1 l2, cols = l1 ++ c :: l2 ∧ ∀ c' ∈ l1, colMatches keys c' = false) := by
  induction cols with
  | nil =>
      refine ⟨by simp [find_col], ?_⟩
      intro c h
      simp [find_col] at h
  | cons x rest ih =>
      constructor
      · constructor
        · intro h c hc
          by_cases hx : colMatches keys x = true
          · rw [find_col, if_pos hx] at h
            exact absurd h (by simp)
          · rw [find_col, if_neg hx] at h
            rcases List.mem_cons.mp hc with hcx | hcr
            · subst hcx
              exact Bool.eq_false_iff.mpr hx
            · exact ih.1.mp h c hcr
        · intro h
          have hx : colMatches keys x = false := h x (List.mem_cons_self x rest)
          rw [find_col, if_neg (by simp [hx])]
          exact ih.1.mpr fun c hc => h c (List.mem_cons_of_mem x hc)
      · intro c h
        by_cases hx : colMatches keys x = true
        · rw [find_col, if_pos hx] at h
          have hxc : x = c := Option.some.inj h
          subst hxc
          exact ⟨hx, [], rest, rfl, by simp⟩
        · rw [find_col, if_neg hx] at h
          obtain ⟨hm, l1, l2, heq, hpre⟩ := ih.2 c h
          refine ⟨hm, x :: l1, l2, by rw [heq]; rfl, ?_⟩
          intro c' hc'
          rcases List.mem_cons.mp hc' with hcx | hcr
          · subst hcx
            exact Bool.eq_false_iff.mpr hx
          · exact hpre c' hcr

/-- Witness for C5 at the concrete headers of the spec example: the column
returned for keyword "dpd" is a matching column preceded only by
non-matching columns. -/
theorem find_col_first_match_witness :
    colMatches ["dpd"] "DPD Bucket" = true ∧
    ∃ l1 l2, ["Region", "DPD Bucket", "Connect"] = l1 ++ "DPD Bucket" :: l2 ∧
      ∀ c' ∈ l1, colMatches ["dpd"] c' = false :=
  (find_col_first_match ["Region", "DPD Bucket", "Connect"] ["dpd"]).2 "DPD Bucket" (by rfl)

/-- C1 counterexample: on headers ["Region", "DPD Bucket", "Connect"] the
resolver applied to keyword list ["state"] returns none, not "Region" —
"state" is not a substring of any lowercased header. -/
theorem find_col_state_not_region :
    find_col ["Region", "DPD Bucket", "Connect"] ["state"] = none ∧
    find_col ["Region", "DPD Bucket", "Connect"] ["state"] ≠ some "Region" := by
  decide

/-- C1 amended: on headers ["Region", "DPD Bucket", "Connect"], find_col
with keyword list ["state"] returns not-found (no header contains
"state"), and find_col with keyword list ["dpd"] returns "DPD Bucket". -/
theorem find_col_region_dpd_headers :
    find_col ["Region", "DPD Bucket", "Connect"] ["state"] = none ∧
    find_col ["Region", "DPD Bucket", "Connect"] ["dpd"] = some "DPD Bucket" := by
  decide

/-! ### Theorems about the filter pipeline -/

/-- C6: with all three selections "All" the filter pipeline returns the
loaded table unchanged, whatever the resolved state and DPD columns are. -/
theorem filter_all_identity (scol dcol : String) (t : Table) :
    filtered_df scol dcol "All" "All" "All" t = Except.ok t := by
  rfl

/-- An Except bind that produced a value factors through a value. -/
theorem except_bind_ok {α β γ : Type} {e : Except α β} {f : β → Except α γ} {b : γ}
    (h : Except.bind e f = .ok b) : ∃ a, e = .ok a ∧ f a = .ok b := by
  cases e with
  | error x => exact absurd h (by simp [Except.bind])
  | ok a => exact ⟨a, rfl, h⟩

/-- A successful state step keeps the columns and selects a sublist of
the rows. -/
theorem stepState_ok_sub {scol ssel : String} {t t' : Table}
    (h : stepState scol ssel t = .ok t') :
    t'.cols = t.cols ∧ List.Sublist t'.rows t.rows := by
  rw [stepState] at h
  split at h
  · cases h
    exact ⟨rfl, List.Sublist.refl _⟩
  · split at h
    · cases h
      exact ⟨rfl, List.filter_sublist _⟩
    · exact absurd h (by simp)

/-- A successful DPD step keeps the columns and selects a sublist of the
rows. -/
theorem stepDpd_ok_sub {dcol dsel : String} {t t' : Table}
    (h : stepDpd dcol dsel t = .ok t') :
    t'.cols = t.cols ∧ List.Sublist t'.rows t.rows := by
  rw [stepDpd] at h
  split at h
  · cases h
    exact ⟨rfl, List.Sublist.refl _⟩
  · split at h
    · cases h
      exact ⟨rfl, List.filter_sublist _⟩
    · exact absurd h (by simp)

/-- A successful connect step keeps the columns and selects a sublist of
the rows. -/
theorem stepConnect_ok_sub {csel : String} {t t' : Table}
    (h : stepConnect csel t = .ok t') :
    t'.cols = t.cols ∧ List.Sublist t'.rows t.rows := by
  rw [stepConnect] at h
  split at h
  · split at h
    · cases h
      exact ⟨rfl, List.filter_sublist _⟩
    · exact absurd h (by simp)
  · split at h
    · split at h
      · cases h
        exact ⟨rfl, List.filter_sublist _⟩
      · exact absurd h (by simp)
    · cases h
      exact ⟨rfl, List.Sublist.refl _⟩

/-- C9: whenever the filter pipeline succeeds, the filtered table has the
same columns and its rows are a sublist of the loaded rows — so every
filtered row is a loaded row, no original row occurrence is used twice,
and the surviving rows keep their original relative order. -/
theorem filtered_df_sublist (scol dcol ssel dsel csel : String) (t ft : Table)
    (h : filtered_df scol dcol ssel dsel csel t = .ok ft) :
    ft.cols = t.cols ∧ List.Sublist ft.rows t.rows ∧
    (∀ r ∈ ft.rows, r ∈ t.rows) ∧
    (∀ r, ft.rows.count r ≤ t.rows.count r) := by
  obtain ⟨t2, h12, h3⟩ := except_bind_ok h
  obtain ⟨t1, h1, h2⟩ := except_bind_ok h12
  obtain ⟨hc1, hs1⟩ := stepState_ok_sub h1
  obtain ⟨hc2, hs2⟩ := stepDpd_ok_sub h2
  obtain ⟨hc3, hs3⟩ := stepConnect_ok_sub h3
  have hsub : List.Sublist ft.rows t.rows :=
    (hs3.trans hs2).trans hs1
  exact ⟨hc3.trans (hc2.trans hc1), hsub,
    fun r hr => hsub.subset hr, fun r => hsub.count_le r⟩

/-- Witness for C9 at a concrete table and all-pass selections. -/
theorem filtered_df_sublist_witness :
    (Table.mk ["State"] [[Cell.str "MH"]]).cols = (Table.mk ["State"] [[Cell.str "MH"]]).cols ∧
    List.Sublist (Table.mk ["State"] [[Cell.str "MH"]]).rows
      (Table.mk ["State"] [[Cell.str "MH"]]).rows ∧
    (∀ r ∈ (Table.mk ["State"] [[Cell.str "MH"]]).rows,
      r ∈ (Table.mk ["State"] [[Cell.str "MH"]]).rows) ∧
    (∀ r, (Table.mk ["State"] [[Cell.str "MH"]]).rows.count r ≤
      (Table.mk ["State"] [[Cell.str "MH"]]).rows.count r) :=
  filtered_df_sublist "State" "DPD" "All" "All" "All"
    (Table.mk ["State"] [[Cell.str "MH"]]) (Table.mk ["State"] [[Cell.str "MH"]]) (by rfl)

/-- Binding a value into an Except continuation applies it. -/
theorem bind_ok {α β γ : Type} (x : β) (f : β → Except α γ) :
    Except.bind (Except.ok x) f = f x := rfl

/-- A state step whose column is present (or whose selection is "All")
succeeds and filters the rows by the state predicate. -/
theorem stepState_ok_eq (scol ssel : String) (cols : List String)
    (rows : List (List Cell)) (h : ssel ≠ "All" → cols.contains scol = true) :
    stepState scol ssel ⟨cols, rows⟩
      = .ok ⟨cols, rows.filter (predState cols scol ssel)⟩ := by
  by_cases hA : ssel = "All"
  · subst hA
    rw [stepState, if_pos rfl]
    have hf : rows.filter (predState cols scol "All") = rows := by
      simp [predState]
    rw [hf]
  · rw [stepState, if_neg hA, if_pos (h hA)]
    have hb : (ssel == "All") = false := by
      rw [beq_eq_false_iff_ne]
      exact hA
    have hf : rows.filter (fun r => cellToStr (getCell cols r scol) == ssel)
        = rows.filter (predState cols scol ssel) :=
      List.filter_congr fun r _ => by simp [predState, hb]
    rw [hf]

/-- A DPD step whose column is present (or whose selection is "All")
succeeds and filters the rows by the DPD predicate. -/
theorem stepDpd_ok_eq (dcol dsel : String) (cols : List String)
    (rows : List (List Cell)) (h : dsel ≠ "All" → cols.contains dcol = true) :
    stepDpd dcol dsel ⟨cols, rows⟩
      = .ok ⟨cols, rows.filter (predDpd cols dcol dsel)⟩ := by
  by_cases hA : dsel = "All"
  · subst hA
    rw [stepDpd, if_pos rfl]
    have hf : rows.filter (predDpd cols dcol "All") = rows := by
      simp [predDpd]
    rw [hf]
  · rw [stepDpd, if_neg hA, if_pos (h hA)]
    have hb : (dsel == "All") = false := by
      rw [beq_eq_false_iff_ne]
      exact hA
    have hf : rows.filter (fun r => cellToStr (getCell cols r dcol) == dsel)
        = rows.filter (predDpd cols dcol dsel) :=
      List.filter_congr fun r _ => by simp [predDpd, hb]
    rw [hf]

/-- A connect step with the Connect column present (or an unrestricted
selection) succeeds and filters the rows by the connect predicate. -/
theorem stepConnect_ok_eq (csel : String) (cols : List String)
    (rows : List (List Cell))
    (h : csel = "Connected" ∨ csel = "Not Connected" → cols.contains "Connect" = true) :
    stepConnect csel ⟨cols, rows⟩
      = .ok ⟨cols, rows.filter (predConnect cols csel)⟩ := by
  by_cases h1 : csel = "Connected"
  · subst h1
    rw [stepConnect, if_pos rfl, if_pos (h (Or.inl rfl))]
    have hf : rows.filter (fun r => cellGtZero (getCell cols r "Connect"))
        = rows.filter (predConnect cols "Connected") :=
      List.filter_congr fun r _ => by simp [predConnect]
    rw [hf]
  · by_cases h2 : csel = "Not Connected"
    · subst h2
      rw [stepConnect, if_neg (by decide), if_pos rfl, if_pos (h (Or.inr rfl))]
      have hne1 : (("Not Connected" : String) == "Connected") = false := by decide
      have hf : rows.filter (fun r => cellEqZero (getCell cols r "Connect"))
          = rows.filter (predConnect cols "Not Connected") :=
        List.filter_congr fun r _ => by simp [predConnect, hne1]
      rw [hf]
    · rw [stepConnect, if_neg h1, if_neg h2]
      have hb1 : (csel == "Connected") = false := by
        rw [beq_eq_false_iff_ne]
        exact h1
      have hb2 : (csel == "Not Connected") = false := by
        rw [beq_eq_false_iff_ne]
        exact h2
      have hf : rows.filter (predConnect cols csel) = rows := by
        simp [predConnect, hb1, hb2]
      rw [hf]

/-- Any single named step, under the presence hypotheses, succeeds and
filters by its predicate. -/
theorem runStep_ok (scol dcol ssel dsel csel : String) (cols : List String)
    (rows : List (List Cell))
    (hs : ssel ≠ "All" → cols.contains scol = true)
    (hd : dsel ≠ "All" → cols.contains dcol = true)
    (hc : csel = "Connected" ∨ csel = "Not Connected" → cols.contains "Connect" = true)
    (s : FStep) :
    runStep scol dcol ssel dsel csel s ⟨cols, rows⟩
      = .ok ⟨cols, rows.filter (predOf scol dcol ssel dsel csel cols s)⟩ := by
  cases s
  · exact stepState_ok_eq scol ssel cols rows hs
  · exact stepDpd_ok_eq dcol dsel cols rows hd
  · exact stepConnect_ok_eq csel cols rows hc

/-- Running any three named steps in sequence filters the rows by the
three predicates in that order. -/
theorem runSteps_three (scol dcol ssel dsel csel : String) (cols : List String)
    (rows : List (List Cell))
    (hs : ssel ≠ "All" → cols.contains scol = true)
    (hd : dsel ≠ "All" → cols.contains dcol = true)
    (hc : csel = "Connected" ∨ csel = "Not Connected" → cols.contains "Connect" = true)
    (a b c : FStep) :
    runSteps scol dcol ssel dsel csel [a, b, c] ⟨cols, rows⟩
      = .ok ⟨cols, ((rows.filter (predOf scol dcol ssel dsel csel cols a)).filter
          (predOf scol dcol ssel dsel csel cols b)).filter
          (predOf scol dcol ssel dsel csel cols c)⟩ := by
  simp only [runSteps, List.foldl]
  rw [bind_ok, runStep_ok scol dcol ssel dsel csel cols rows hs hd hc a,
    bind_ok, runStep_ok scol dcol ssel dsel csel cols _ hs hd hc b,
    bind_ok, runStep_ok scol dcol ssel dsel csel cols _ hs hd hc c]

/-- C8: whenever each active filter's column is present in the table, the
three filter steps (state exact-match, DPD-bucket exact-match,
connect-status) applied in any of the six orders give the same final
filtered table as the pipeline's own order. -/
theorem filters_commute (scol dcol ssel dsel csel : String) (t : Table)
    (hs : ssel ≠ "All" → t.cols.contains scol = true)
    (hd : dsel ≠ "All" → t.cols.contains dcol = true)
    (hc : csel = "Connected" ∨ csel = "Not Connected" → t.cols.contains "Connect" = true) :
    ∀ l ∈ [[FStep.fState, FStep.fDpd, FStep.fConnect],
           [FStep.fState, FStep.fConnect, FStep.fDpd],
           [FStep.fDpd, FStep.fState, FStep.fConnect],
           [FStep.fDpd, FStep.fConnect, FStep.fState],
           [FStep.fConnect, FStep.fState, FStep.fDpd],
           [FStep.fConnect, FStep.fDpd, FStep.fState]],
      runSteps scol dcol ssel dsel csel l t
        = runSteps scol dcol ssel dsel csel [FStep.fState, FStep.fDpd, FStep.fConnect] t := by
  obtain ⟨cols, rows⟩ := t
  intro l hl
  fin_cases hl <;>
    simp only [runSteps_three scol dcol ssel dsel csel cols rows hs hd hc,
      Except.ok.injEq, Table.mk.injEq, true_and, List.filter_filter] <;>
    exact List.filter_congr fun r _ => by
      cases hx : predOf scol dcol ssel dsel csel cols FStep.fState r <;>
        cases hy : predOf scol dcol ssel dsel csel cols FStep.fDpd r <;>
          cases hz : predOf scol dcol ssel dsel csel cols FStep.fConnect r <;>
            simp [hx, hy, hz]

/-- Witness for C8 at a concrete table and selections with every active
column present. -/
theorem filters_commute_witness :
    runSteps "State" "DPD" "MH" "All" "Connected"
        [FStep.fConnect, FStep.fDpd, FStep.fState]
        (Table.mk ["State", "DPD", "Connect"]
          [[Cell.str "MH", Cell.str "0-30", Cell.num 1]])
      = runSteps "State" "DPD" "MH" "All" "Connected"
        [FStep.fState, FStep.fDpd, FStep.fConnect]
        (Table.mk ["State", "DPD", "Connect"]
          [[Cell.str "MH", Cell.str "0-30", Cell.num 1]]) :=
  filters_commute "State" "DPD" "MH" "All" "Connected"
    (Table.mk ["State", "DPD", "Connect"] [[Cell.str "MH", Cell.str "0-30", Cell.num 1]])
    (fun _ => by decide) (fun _ => by decide) (fun _ => by decide)
    [FStep.fConnect, FStep.fDpd, FStep.fState] (by decide)

/-- C7: on a base filtered table obtained from the state and DPD filters
of a table whose Connect column is present with only non-negative numeric
values, the "Connected" selection (Connect > 0) and the "Not Connected"
selection (Connect == 0) both succeed, keep disjoint row sets, and
together reconstruct the base filtered rows exactly (as a permutation,
so multiplicities are preserved). -/
theorem connect_partition (scol dcol ssel dsel : String) (t : Table)
    (hcon : t.cols.contains "Connect" = true)
    (hpos : ∀ r ∈ t.rows, ∃ q : ℚ, getCell t.cols r "Connect" = .num q ∧ 0 ≤ q)
    (b : Table)
    (hb : Except.bind (stepState scol ssel t) (stepDpd dcol dsel) = .ok b) :
    ∃ bc bn, stepConnect "Connected" b = .ok bc ∧
      stepConnect "Not Connected" b = .ok bn ∧
      (∀ r ∈ bc.rows, r ∉ bn.rows) ∧
      List.Perm (bc.rows ++ bn.rows) b.rows := by
  obtain ⟨t1, h1, h2⟩ := except_bind_ok hb
  obtain ⟨hc1, hs1⟩ := stepState_ok_sub h1
  obtain ⟨hc2, hs2⟩ := stepDpd_ok_sub h2
  have hbc : b.cols = t.cols := hc2.trans hc1
  have hbrows : ∀ r ∈ b.rows, r ∈ t.rows := fun r hr => hs1.subset (hs2.subset hr)
  have hposb : ∀ r ∈ b.rows, ∃ q : ℚ, getCell b.cols r "Connect" = .num q ∧ 0 ≤ q := by
    intro r hr
    rw [hbc]
    exact hpos r (hbrows r hr)
  have hconb : b.cols.contains "Connect" = true := by
    rw [hbc]
    exact hcon
  refine ⟨⟨b.cols, b.rows.filter (fun r => cellGtZero (getCell b.cols r "Connect"))⟩,
    ⟨b.cols, b.rows.filter (fun r => cellEqZero (getCell b.cols r "Connect"))⟩,
    ?_, ?_, ?_, ?_⟩
  · rw [stepConnect, if_pos rfl, if_pos hconb]
  · rw [stepConnect, if_neg (by decide), if_pos rfl, if_pos hconb]
  · dsimp only
    intro r hr hr2
    rw [List.mem_filter] at hr hr2
    obtain ⟨hrb, hgt⟩ := hr
    obtain ⟨_, heq⟩ := hr2
    obtain ⟨q, hq, hq0⟩ := hposb r hrb
    rw [hq] at hgt heq
    simp only [cellGtZero, decide_eq_true_eq] at hgt
    simp only [cellEqZero, decide_eq_true_eq] at heq
    rw [heq] at hgt
    exact lt_irrefl 0 hgt
  · dsimp only
    have hcongr : b.rows.filter (fun r => cellEqZero (getCell b.cols r "Connect"))
        = b.rows.filter (fun r => !cellGtZero (getCell b.cols r "Connect")) := by
      apply List.filter_congr
      intro r hr
      obtain ⟨q, hq, hq0⟩ := hposb r hr
      rw [hq]
      by_cases hq' : q = 0
      · subst hq'
        simp [cellEqZero, cellGtZero]
      · have hlt : (0 : ℚ) < q := lt_of_le_of_ne hq0 (Ne.symm hq')
        simp [cellEqZero, cellGtZero, hq', hlt]
    rw [hcongr]
    exact List.filter_append_perm _ b.rows

/-- Witness for C7 at a concrete two-row table with Connect values 1 and
0 and pass-through state/DPD selections. -/
theorem connect_partition_witness :
    ∃ bc bn, stepConnect "Connected"
        (Table.mk ["Connect"] [[Cell.num 1], [Cell.num 0]]) = .ok bc ∧
      stepConnect "Not Connected"
        (Table.mk ["Connect"] [[Cell.num 1], [Cell.num 0]]) = .ok bn ∧
      (∀ r ∈ bc.rows, r ∉ bn.rows) ∧
      List.Perm (bc.rows ++ bn.rows)
        (Table.mk ["Connect"] [[Cell.num 1], [Cell.num 0]]).rows :=
  connect_partition "S" "D" "All" "All"
    (Table.mk ["Connect"] [[Cell.num 1], [Cell.num 0]]) (by rfl)
    (by
      intro r hr
      simp only [List.mem_cons, List.not_mem_nil, or_false] at hr
      rcases hr with hr | hr
      · subst hr
        exact ⟨1, rfl, zero_le_one⟩
      · subst hr
        exact ⟨0, rfl, le_refl 0⟩)
    (Table.mk ["Connect"] [[Cell.num 1], [Cell.num 0]]) (by rfl)

/-! ### Theorems about the KPI helpers -/

/-- The floor of zero is zero. -/
theorem floorQ_zero : floorQ 0 = 0 := by
  simp [floorQ]

/-- Truncating zero gives zero. -/
theorem truncQ_zero : truncQ 0 = 0 := by
  simp [truncQ, floorQ_zero]

/-- Rounding zero to two decimals gives zero. -/
theorem roundQ2_zero : roundQ2 0 = 0 := by
  norm_num [roundQ2, roundHalfEven, floorQ]

/-- A table with no rows has zero column sums. -/
theorem sumCol_empty (t : Table) (col : String) (h : t.rows = []) :
    sumCol t col = 0 := by
  simp [sumCol, sumColRows, h]

/-- C10: on an empty filtered row set, all eight KPI scalars are zero —
the five integer totals and the three crore values — with every helper
total and defined (no failure on the empty set). -/
theorem kpis_zero_on_empty (t : Table) (h : t.rows = []) :
    total t "No of Loans" = 0 ∧ total t "Dailed Customers" = 0 ∧
    total t "Connect" = 0 ∧ total t "Nos. of PTP" = 0 ∧
    total t "Intensity" = 0 ∧ crore t "Collection Amount" = 0 ∧
    crore t "Principal Outstanding" = 0 ∧ crore t "Total Default Amount" = 0 := by
  have ht : ∀ col, total t col = 0 := by
    intro col
    rw [total]
    split
    · rw [sumCol_empty t col h, truncQ_zero]
    · rfl
  have hcr : ∀ col, crore t col = 0 := by
    intro col
    rw [crore]
    split
    · rw [sumCol_empty t col h, zero_div, roundQ2_zero]
    · rfl
  exact ⟨ht _, ht _, ht _, ht _, ht _, hcr _, hcr _, hcr _⟩

/-- Witness for C10 at a concrete table with a header and no rows. -/
theorem kpis_zero_on_empty_witness :
    total (Table.mk ["State"] []) "No of Loans" = 0 ∧
    total (Table.mk ["State"] []) "Dailed Customers" = 0 ∧
    total (Table.mk ["State"] []) "Connect" = 0 ∧
    total (Table.mk ["State"] []) "Nos. of PTP" = 0 ∧
    total (Table.mk ["State"] []) "Intensity" = 0 ∧
    crore (Table.mk ["State"] []) "Collection Amount" = 0 ∧
    crore (Table.mk ["State"] []) "Principal Outstanding" = 0 ∧
    crore (Table.mk ["State"] []) "Total Default Amount" = 0 :=
  kpis_zero_on_empty (Table.mk ["State"] []) rfl

/-- C4 amended: the crore KPI equals round(sum(filtered[col]) / 1e7, 2)
when the column is present, and equals 0 when the column is absent (it
can also be 0 with the column present, e.g. on a zero sum). -/
theorem crore_formula (t : Table) (col : String) :
    (t.cols.contains col = true →
      crore t col = roundQ2 (sumCol t col / 10000000)) ∧
    (t.cols.contains col = false → crore t col = 0) := by
  constructor
  · intro h
    rw [crore, if_pos h]
  · intro h
    rw [crore, if_neg (ne_true_of_eq_false h)]

/-- Witness for C4 applying both halves at concrete tables. -/
theorem crore_formula_witness :
    crore (Table.mk ["Collection Amount"] []) "Collection Amount"
      = roundQ2 (sumCol (Table.mk ["Collection Amount"] []) "Collection Amount" / 10000000) ∧
    crore (Table.mk ["State"] []) "Collection Amount" = 0 :=
  ⟨(crore_formula (Table.mk ["Collection Amount"] []) "Collection Amount").1 (by rfl),
    (crore_formula (Table.mk ["State"] []) "Collection Amount").2 (by rfl)⟩

/-- C4 counterexample: the crore KPI of a present column can be 0 (here
"Collection Amount" is present and the table has no rows), so crore being
0 does not happen exactly when the column is absent. -/
theorem crore_zero_with_col_present :
    crore (Table.mk ["Collection Amount"] []) "Collection Amount" = 0 ∧
    (Table.mk ["Collection Amount"] ([] : List (List Cell))).cols.contains
      "Collection Amount" = true := by
  constructor
  · rw [crore, if_pos (by decide), sumCol_empty _ _ rfl, zero_div, roundQ2_zero]
  · decide

/-- C2 amended: the KPI helpers report zero for any absent source column
instead of failing. -/
theorem kpi_absent_zero (t : Table) (col : String)
    (h : t.cols.contains col = false) :
    total t col = 0 ∧ crore t col = 0 := by
  constructor
  · rw [total, if_neg (ne_true_of_eq_false h)]
  · rw [crore, if_neg (ne_true_of_eq_false h)]

/-- Witness for C2 at a concrete table lacking the requested column. -/
theorem kpi_absent_zero_witness :
    total (Table.mk ["State"] [[Cell.str "MH"]]) "Collection Amount" = 0 ∧
    crore (Table.mk ["State"] [[Cell.str "MH"]]) "Collection Amount" = 0 :=
  kpi_absent_zero (Table.mk ["State"] [[Cell.str "MH"]]) "Collection Amount" (by decide)

/-- C2 counterexample: the grouped aggregate and the connect filter are
not guarded: on a table without "Collection Amount" the state summary
raises a KeyError instead of reporting zero, and on a table without
"Connect" the "Connected" selection raises a KeyError instead of keeping
the pipeline alive. -/
theorem aggregate_absent_col_error :
    state_summary (Table.mk ["State"] [[Cell.str "MH"]]) "State"
      = Except.error "KeyError: Collection Amount" ∧
    stepConnect "Connected" (Table.mk ["State"] [[Cell.str "MH"]])
      = Except.error "KeyError: Connect" := by
  constructor
  · rfl
  · rfl

/-! ### Theorems about load_data -/

/-- Reading back the position just written in a row gives the new cell. -/
theorem getD_set_self (l : List Cell) (i : ℕ) (v d : Cell) (hi : i < l.length) :
    (l.set i v).getD i d = v := by
  induction l generalizing i with
  | nil => exact absurd hi (by simp)
  | cons x xs ih =>
      cases i with
      | zero => rfl
      | succ n => exact ih n (Nat.lt_of_succ_lt_succ hi)

/-- Writing one position of a row leaves every other position unchanged. -/
theorem getD_set_ne (l : List Cell) (i j : ℕ) (v d : Cell) (hij : i ≠ j) :
    (l.set i v).getD j d = l.getD j d := by
  induction l generalizing i j with
  | nil => rfl
  | cons x xs ih =>
      cases i with
      | zero =>
          cases j with
          | zero => exact absurd rfl hij
          | succ m => rfl
      | succ n =>
          cases j with
          | zero => rfl
          | succ m => exact ih n m (fun h => hij (by rw [h]))

/-- A found column index is within the header list. -/
theorem colIdx_lt_length (cols : List String) (c : String) (i : ℕ)
    (h : colIdx cols c = some i) : i < cols.length := by
  induction cols generalizing i with
  | nil => exact absurd h (by simp [colIdx])
  | cons x rest ih =>
      rw [colIdx] at h
      by_cases hx : x = c
      · rw [if_pos hx] at h
        cases h
        simp
      · rw [if_neg hx] at h
        cases hmi : colIdx rest c with
        | none => rw [hmi] at h; exact absurd h (by simp)
        | some j =>
            rw [hmi] at h
            cases h
            exact Nat.succ_lt_succ (ih j hmi)

/-- Distinct column names have distinct indices. -/
theorem colIdx_ne (cols : List String) (c1 c2 : String) (i j : ℕ) (hne : c1 ≠ c2)
    (h1 : colIdx cols c1 = some i) (h2 : colIdx cols c2 = some j) : i ≠ j := by
  induction cols generalizing i j with
  | nil => exact absurd h1 (by simp [colIdx])
  | cons x rest ih =>
      rw [colIdx] at h1 h2
      by_cases hx1 : x = c1
      · rw [if_pos hx1] at h1
        cases h1
        rw [if_neg (fun h => hne (hx1.symm.trans h))] at h2
        cases hmj : colIdx rest c2 with
        | none => rw [hmj] at h2; exact absurd h2 (by simp)
        | some j' =>
            rw [hmj] at h2
            cases h2
            exact (Nat.succ_ne_zero j').symm
      · rw [if_neg hx1] at h1
        cases hmi : colIdx rest c1 with
        | none => rw [hmi] at h1; exact absurd h1 (by simp)
        | some i' =>
            rw [hmi] at h1
            cases h1
            by_cases hx2 : x = c2
            · rw [if_pos hx2] at h2
              cases h2
              exact Nat.succ_ne_zero i'
            · rw [if_neg hx2] at h2
              cases hmj : colIdx rest c2 with
              | none => rw [hmj] at h2; exact absurd h2 (by simp)
              | some j' =>
                  rw [hmj] at h2
                  cases h2
                  exact fun h => ih i' j' hmi hmj (Nat.succ_injective h)

/-- A column reported present by contains has an index. -/
theorem colIdx_of_contains (cols : List String) (c : String)
    (h : cols.contains c = true) : ∃ i, colIdx cols c = some i := by
  induction cols with
  | nil => exact absurd h (by simp)
  | cons x rest ih =>
      by_cases hx : x = c
      · exact ⟨0, by rw [colIdx, if_pos hx]⟩
      · have hr : rest.contains c = true := by
          have hcx : (c == x) = false := by
            rw [beq_eq_false_iff_ne]
            exact fun h' => hx h'.symm
          rw [List.contains_cons, hcx, Bool.false_or] at h
          exact h
        obtain ⟨i, hi⟩ := ih hr
        exact ⟨i + 1, by rw [colIdx, if_neg hx, hi]; rfl⟩

/-- Coercing one column preserves row length. -/
theorem coerceColumn_length (cols : List String) (c : String) (r : List Cell) :
    (coerceColumn cols c r).length = r.length := by
  rw [coerceColumn]
  cases h : colIdx cols c with
  | none => rfl
  | some i => simp

/-- Coercing one column does not change the cell of a different column. -/
theorem getCell_coerceColumn_ne (cols : List String) (ccol col : String)
    (r : List Cell) (hne : ccol ≠ col) :
    getCell cols (coerceColumn cols ccol r) col = getCell cols r col := by
  rw [coerceColumn]
  cases h1 : colIdx cols ccol with
  | none => rfl
  | some i =>
      rw [getCell, getCell]
      cases h2 : colIdx cols col with
      | none => rfl
      | some j => exact getD_set_ne r i j _ _ (colIdx_ne cols ccol col i j hne h1 h2)

/-- Coercing a present column rewrites exactly its own cell. -/
theorem getCell_coerceColumn_self (cols : List String) (col : String)
    (r : List Cell) (hlen : cols.length ≤ r.length) (i : ℕ)
    (hidx : colIdx cols col = some i) :
    getCell cols (coerceColumn cols col r) col
      = coerceCell (getCell cols r col) := by
  simp only [coerceColumn, getCell, hidx]
  exact getD_set_self r i _ _ (lt_of_lt_of_le (colIdx_lt_length cols col i hidx) hlen)

/-- Folding the per-row coercions of columns that a cell's column is not
among leaves that cell unchanged. -/
theorem perRow_notmem (cols : List String) (L : List String) (col : String) :
    ∀ r : List Cell, col ∉ L →
      getCell cols
        (L.foldl (fun acc c => if cols.contains c then coerceColumn cols c acc else acc) r)
        col = getCell cols r col := by
  induction L with
  | nil => intro r _; rfl
  | cons x rest ih =>
      intro r hnm
      simp only [List.foldl_cons]
      rw [ih _ (fun h => hnm (List.mem_cons_of_mem x h))]
      have hx : x ≠ col := fun h => hnm (h ▸ List.mem_cons_self x rest)
      split
      · exact getCell_coerceColumn_ne cols x col r hx
      · rfl

/-- Folding the per-row coercions over a duplicate-free column list that
holds the cell's column, when that column is present, coerces exactly
that cell. -/
theorem perRow_mem (cols : List String) (L : List String) (col : String) :
    ∀ r : List Cell, cols.length ≤ r.length → L.Nodup → col ∈ L →
      cols.contains col = true →
      getCell cols
        (L.foldl (fun acc c => if cols.contains c then coerceColumn cols c acc else acc) r)
        col = coerceCell (getCell cols r col) := by
  induction L with
  | nil => intro r _ _ hmem _; exact absurd hmem (by simp)
  | cons x rest ih =>
      intro r hlen hnd hmem hcont
      simp only [List.foldl_cons]
      by_cases hx : x = col
      · subst hx
        rw [if_pos hcont]
        have hnr : x ∉ rest := (List.nodup_cons.mp hnd).1
        rw [perRow_notmem cols rest x _ hnr]
        obtain ⟨i, hi⟩ := colIdx_of_contains cols x hcont
        exact getCell_coerceColumn_self cols x r hlen i hi
      · have hmem' : col ∈ rest := by
          rcases List.mem_cons.mp hmem with h | h
          · exact absurd h.symm hx
          · exact h
        have hlen' : cols.length ≤ (if cols.contains x then coerceColumn cols x r else r).length := by
          split
          · rw [coerceColumn_length]
            exact hlen
          · exact hlen
        rw [ih _ hlen' (List.nodup_cons.mp hnd).2 hmem' hcont]
        congr 1
        split
        · exact getCell_coerceColumn_ne cols x col r hx
        · rfl

/-- The column-major coercion loop of load_data equals a row-major map of
the per-row coercion fold. -/
theorem load_rows_map (cols : List String) (L : List String) :
    ∀ rows : List (List Cell),
      L.foldl (fun rs c => if cols.contains c then rs.map (coerceColumn cols c) else rs) rows
        = rows.map (fun r =>
            L.foldl (fun acc c => if cols.contains c then coerceColumn cols c acc else acc) r) := by
  induction L with
  | nil => intro rows; simp
  | cons x rest ih =>
      intro rows
      simp only [List.foldl_cons]
      by_cases hx : cols.contains x = true
      · rw [if_pos hx, ih, List.map_map]
        congr 1
        funext r
        simp only [Function.comp_apply]
        rw [if_pos hx]
      · rw [if_neg hx, ih]
        congr 1
        funext r
        rw [if_neg hx]

/-- Indexing into a mapped list below its length applies the function to
the corresponding element. -/
theorem getD_map_lt {α β : Type} (f : α → β) (l : List α) (i : ℕ) (d : β) (d' : α)
    (hi : i < l.length) : (l.map f).getD i d = f (l.getD i d') := by
  induction l generalizing i with
  | nil => exact absurd hi (by simp)
  | cons x xs ih =>
      cases i with
      | zero => rfl
      | succ n => exact ih n (Nat.lt_of_succ_lt_succ hi)

/-- Indexing below the length of a list yields a member. -/
theorem getD_mem {α : Type} (l : List α) (i : ℕ) (d : α) (hi : i < l.length) :
    l.getD i d ∈ l := by
  induction l generalizing i with
  | nil => exact absurd hi (by simp)
  | cons x xs ih =>
      cases i with
      | zero => exact List.mem_cons_self x xs
      | succ n => exact List.mem_cons_of_mem x (ih n (Nat.lt_of_succ_lt_succ hi))

/-- Cell coercion always yields a numeric cell. -/
theorem coerceCell_num (c : Cell) : ∃ q : ℚ, coerceCell c = .num q := by
  cases c with
  | num q => exact ⟨q, rfl⟩
  | str s =>
      cases h : parseNum s with
      | none => exact ⟨0, by simp [coerceCell, h]⟩
      | some q => exact ⟨q, by simp [coerceCell, h]⟩
  | null => exact ⟨0, rfl⟩

/-- A cell whose coercion fails becomes exactly zero. -/
theorem coerceFails_zero (c : Cell) (h : coerceFails c = true) :
    coerceCell c = .num 0 := by
  cases c with
  | num q => exact absurd h (by simp [coerceFails])
  | str s =>
      have hn : parseNum s = none := by
        rw [coerceFails] at h
        exact Option.isNone_iff_eq_none.mp h
      simp [coerceCell, hn]
  | null => rfl

/-- C3 amended: after load_data, every declared numeric column that is
present in the (stripped) header of a rectangular table holds only
numeric cells and never nulls: each cell is the coercion of the original
cell, that coercion always yields a number, and any cell whose numeric
coercion fails is exactly zero.  (Non-negativity does not hold: see the
counterexample with a negative value.) -/
theorem load_data_numeric_cells (t : Table) (col : String)
    (hmem : col ∈ numeric_cols)
    (hrect : ∀ r ∈ t.rows, r.length = t.cols.length)
    (hpres : (load_data t).cols.contains col = true) :
    (∀ i, i < t.rows.length →
      getCell (load_data t).cols ((load_data t).rows.getD i []) col
        = coerceCell (getCell (load_data t).cols (t.rows.getD i []) col)) ∧
    (∀ r ∈ (load_data t).rows, ∃ q : ℚ, getCell (load_data t).cols r col = .num q) ∧
    (∀ c : Cell, coerceFails c = true → coerceCell c = .num 0) := by
  have hcols : (load_data t).cols = t.cols.map strip := rfl
  have hrows : (load_data t).rows = t.rows.map (fun r =>
      numeric_cols.foldl (fun acc c =>
        if (t.cols.map strip).contains c then coerceColumn (t.cols.map strip) c acc else acc) r) :=
    load_rows_map (t.cols.map strip) numeric_cols t.rows
  have hlen : ∀ r ∈ t.rows, (t.cols.map strip).length ≤ r.length := by
    intro r hr
    rw [List.length_map]
    exact le_of_eq (hrect r hr).symm
  have hnd : numeric_cols.Nodup := by decide
  rw [hcols] at hpres
  have key : ∀ r ∈ t.rows,
      getCell (t.cols.map strip)
        (numeric_cols.foldl (fun acc c =>
          if (t.cols.map strip).contains c then coerceColumn (t.cols.map strip) c acc else acc) r)
        col = coerceCell (getCell (t.cols.map strip) r col) :=
    fun r hr => perRow_mem (t.cols.map strip) numeric_cols col r (hlen r hr) hnd hmem hpres
  refine ⟨?_, ?_, fun c hc => coerceFails_zero c hc⟩
  · intro i hi
    rw [hcols, hrows, getD_map_lt _ t.rows i [] [] hi]
    exact key (t.rows.getD i []) (getD_mem t.rows i [] hi)
  · intro r hr
    rw [hrows] at hr
    obtain ⟨r0, hr0, hrr⟩ := List.mem_map.mp hr
    rw [hcols, ← hrr, key r0 hr0]
    exact coerceCell_num _

/-- Witness for C3 at a one-row table whose "Connect" cell is an
unparseable string. -/
theorem load_data_numeric_cells_witness :
    (∀ i, i < (Table.mk ["Connect"] [[Cell.str "abc"]]).rows.length →
      getCell (load_data (Table.mk ["Connect"] [[Cell.str "abc"]])).cols
          ((load_data (Table.mk ["Connect"] [[Cell.str "abc"]])).rows.getD i []) "Connect"
        = coerceCell (getCell (load_data (Table.mk ["Connect"] [[Cell.str "abc"]])).cols
            ((Table.mk ["Connect"] [[Cell.str "abc"]]).rows.getD i []) "Connect")) ∧
    (∀ r ∈ (load_data (Table.mk ["Connect"] [[Cell.str "abc"]])).rows,
      ∃ q : ℚ, getCell (load_data (Table.mk ["Connect"] [[Cell.str "abc"]])).cols r "Connect"
        = .num q) ∧
    (∀ c : Cell, coerceFails c = true → coerceCell c = .num 0) :=
  load_data_numeric_cells (Table.mk ["Connect"] [[Cell.str "abc"]]) "Connect"
    (by decide) (by decide) (by decide)

/-- C3 counterexample: a negative numeric cell survives load_data
unchanged, so a loaded numeric column does not hold only non-negative
values. -/
theorem load_data_negative_cell :
    getCell (load_data (Table.mk ["Connect"] [[Cell.num (-5)]])).cols
        ((load_data (Table.mk ["Connect"] [[Cell.num (-5)]])).rows.getD 0 []) "Connect"
      = Cell.num (-5) ∧ ((-5 : ℚ) < 0) := by
  constructor
  · rfl
  · norm_num

end Fusion
